import Mathlib

/-!
The shell of myshell.c: tokenizer, command runner and driver loop

A shallow embedding of `src/myshell.c`.

* Memory.  A `char` buffer is a `List Char`; a pointer into it is an index.
  Cells past the end of the list read as NUL, so every list denotes a
  NUL-terminated buffer and storing NUL past the end changes nothing.
* `parse_input` is embedded with the buffer it mutates (the newline strip and
  the NUL bytes `strtok` writes) and with the `args` array of pointers, whose
  stores are bounds-checked.
* `execute_command` is embedded as a function of what the operating system
  answers: the value `fork` returns in this process, which paths `execv`
  accepts, and the value `wait` returns.
* `main` is embedded as one loop iteration plus the loop over the lines that
  `fgets` delivers.
-/

namespace MyShell

/-! ## Constants -/

/-- The constant `MAX_INPUT`, defined as 1024: the size of the `input` and `path` buffers. -/
def MAX_INPUT : Nat := 1024

/-- The constant `MAX_ARGS`, defined as 64: the number of slots of the `args` array. -/
def MAX_ARGS : Nat := 64

/-- The NUL byte that ends a C string. -/
def NUL : Char := Char.ofNat 0

/-- The value of `EXIT_FAILURE` in `<stdlib.h>` (glibc). -/
def EXIT_FAILURE : Nat := 1

/-! ## C strings in a buffer -/

/-- The read `*p`: the byte at index `p`; past the end of the list the buffer holds NUL. -/
def peek (buf : List Char) (p : Nat) : Char := buf.getD p NUL

/-- The C string that starts at index `p`: the bytes up to the first NUL. -/
def cstr (buf : List Char) (p : Nat) : List Char :=
  (buf.drop p).takeWhile (fun c => c != NUL)

/-- The C library `strcspn(s, reject)`: length of the initial segment of the C string at `s`
with no byte from `reject`. -/
def strcspn (buf : List Char) (s : Nat) (reject : List Char) : Nat :=
  ((cstr buf s).takeWhile (fun c => !reject.contains c)).length

/-- The C library `strspn(s, accept)`: length of the initial segment of the C string at `s`
made only of bytes from `accept`. -/
def strspn (buf : List Char) (s : Nat) (accept : List Char) : Nat :=
  ((cstr buf s).takeWhile (fun c => accept.contains c)).length

/-- The call `strtok(s, delim)` of the C library (glibc), with its static save pointer `olds`
made explicit.  `s = none` is the call `strtok(NULL, delim)`.  Returns the
token pointer (`none` for `NULL`), the buffer and the new save pointer. -/
def strtok (buf : List Char) (olds : Nat) (s : Option Nat) (delim : List Char) :
    Option Nat × List Char × Nat :=
  -- if (s == NULL) s = olds;
  let s0 := s.getD olds
  -- if (*s == 0) { olds = s; return NULL; }
  if peek buf s0 = NUL then (none, buf, s0)
  else
    -- s += strspn (s, delim); if (*s == 0) { olds = s; return NULL; }
    let s1 := s0 + strspn buf s0 delim
    if peek buf s1 = NUL then (none, buf, s1)
    else
      -- end = s + strcspn (s, delim); if (*end == 0) { olds = end; return s; }
      let e := s1 + strcspn buf s1 delim
      if peek buf e = NUL then (some s1, buf, e)
      -- *end = 0; olds = end + 1; return s;
      else (some s1, buf.set e NUL, e + 1)

/-! ## parse_input -/

/-- What can go wrong in the embedding of `parse_input`. -/
inductive Fault where
  | outOfBounds
  | outOfFuel
  deriving DecidableEq, Repr

/-- The result of the embedded `parse_input`. -/
inductive Parsed where
  | fault (f : Fault)
  | ok (n : Nat) (buf : List Char) (args : List (Option Nat))
  deriving DecidableEq, Repr

/-- The store `args[i] = v`, a fault when `i` is outside the array. -/
def store (args : List (Option Nat)) (i : Nat) (v : Option Nat) :
    Option (List (Option Nat)) :=
  if i < args.length then some (args.set i v) else none

/-- The delimiter string `" \t"`. -/
def delims : List Char := [' ', '\t']

/-- The `while (token != NULL && i < MAX_ARGS - 1)` loop of `parse_input`. -/
def parse_loop : Nat → List Char → Nat → Option Nat → Nat → List (Option Nat) → Parsed
  | 0, _, _, _, _, _ => Parsed.fault Fault.outOfFuel
  | fuel + 1, buf, olds, token, i, args =>
    match token with
    -- token == NULL: the loop ends
    | none => Parsed.ok i buf args
    | some t =>
      if i < MAX_ARGS - 1 then
        -- args[i++] = token;
        match store args i (some t) with
        | none => Parsed.fault Fault.outOfBounds
        | some args1 =>
          -- token = strtok(NULL, " \t");
          let r := strtok buf olds none delims
          parse_loop fuel r.2.1 r.2.2 r.1 (i + 1) args1
      -- i == MAX_ARGS - 1: the loop ends
      else Parsed.ok i buf args

/-- The function `int parse_input(char *input, char **args)`; `input` points at index 0 of
`input`.  Returns the count, the buffer and the array as the call leaves them. -/
def parse_input (input : List Char) (args : List (Option Nat)) : Parsed :=
  -- input[strcspn(input, "\n")] = 0;
  let buf0 := input.set (strcspn input 0 ['\n']) NUL
  -- token = strtok(input, " \t");
  let r := strtok buf0 0 (some 0) delims
  match parse_loop MAX_ARGS r.2.1 r.2.2 r.1 0 args with
  | Parsed.fault f => Parsed.fault f
  | Parsed.ok i buf args1 =>
    -- args[i] = NULL; return i;
    match store args1 i none with
    | none => Parsed.fault Fault.outOfBounds
    | some args2 => Parsed.ok i buf args2

/-- The strings of a NULL-terminated pointer array, read up to the sentinel. -/
def argv (buf : List Char) : List (Option Nat) → List (List Char)
  | [] => []
  | none :: _ => []
  | some p :: rest => cstr buf p :: argv buf rest

/-- The token strings `parse_input` leaves behind (empty on a fault). -/
def tokens (input : List Char) (args : List (Option Nat)) : List (List Char) :=
  match parse_input input args with
  | Parsed.fault _ => []
  | Parsed.ok _ buf args1 => argv buf args1

/-- A fresh `char *args[MAX_ARGS]`. -/
def args0 : List (Option Nat) := List.replicate MAX_ARGS none


/-! ## execute_command -/

/-- What the operating system answers during one call of `execute_command`. -/
structure Sys where
  /-- The value `fork()` returns in the process under study. -/
  forkRet : Int
  /-- Whether `execv(path, args)` succeeds for a path. -/
  execOk : List Char → Bool
  /-- The value `wait(&status)` returns. -/
  waitRet : Int
  /-- The termination status `wait` stores in `status`. -/
  status : Int

/-- The observable actions of the program, in the order they happen. -/
inductive Ev where
  | out (s : List Char)
  | flush
  | err (s : List Char)
  | perror (label : List Char)
  | enter (args : List (List Char))
  | fork
  | execv (path : List Char) (args : List (List Char))
  | wait
  deriving DecidableEq, Repr

/-- How a piece of code ends in the process under study. -/
inductive Outcome where
  | returned (rc : Int)
  | replaced (path : List Char)
  | exited (code : Nat)
  deriving DecidableEq, Repr

/-- The call `snprintf(path, size, "<pre>%s", s)`: the C string left in `path`, the
formatted text cut to `size - 1` bytes. -/
def snprintf (size : Nat) (pre s : List Char) : List Char :=
  (pre ++ s).take (size - 1)

/-- The call `execv(path, args)`: `none` when the call succeeds (the process image is
replaced and the call never returns), `some (-1)` when it fails. -/
def execv (sys : Sys) (path : List Char) : Option Int :=
  if sys.execOk path then none else some (-1)

/-- The `pid == 0` branch of `execute_command`, up to the end of the function.
`none` when `args[0]` is NULL. -/
def child (sys : Sys) (args : List (List Char)) : Option (List Ev × Outcome) :=
  match args with
  | [] => none
  | a0 :: _ =>
    match execv sys a0 with
    | none => some ([Ev.execv a0 args], Outcome.replaced a0)
    | some r1 =>
      if r1 = -1 then
        let p2 := snprintf MAX_INPUT "/bin/".toList a0
        match execv sys p2 with
        | none => some ([Ev.execv a0 args, Ev.execv p2 args], Outcome.replaced p2)
        | some r2 =>
          if r2 = -1 then
            let p3 := snprintf MAX_INPUT "/usr/bin/".toList a0
            match execv sys p3 with
            | none =>
              some ([Ev.execv a0 args, Ev.execv p2 args, Ev.execv p3 args], Outcome.replaced p3)
            | some r3 =>
              if r3 = -1 then
                let p4 := snprintf MAX_INPUT "/usr/local/bin/".toList a0
                match execv sys p4 with
                | none =>
                  some ([Ev.execv a0 args, Ev.execv p2 args, Ev.execv p3 args,
                    Ev.execv p4 args], Outcome.replaced p4)
                | some r4 =>
                  if r4 = -1 then
                    some ([Ev.execv a0 args, Ev.execv p2 args, Ev.execv p3 args,
                      Ev.execv p4 args,
                      Ev.err ("mysh: command not found: ".toList ++ a0 ++ ['\n'])],
                      Outcome.exited EXIT_FAILURE)
                  else
                    some ([Ev.execv a0 args, Ev.execv p2 args, Ev.execv p3 args,
                      Ev.execv p4 args], Outcome.returned 0)
              else
                some ([Ev.execv a0 args, Ev.execv p2 args, Ev.execv p3 args],
                  Outcome.returned 0)
          else some ([Ev.execv a0 args, Ev.execv p2 args], Outcome.returned 0)
      else some ([Ev.execv a0 args], Outcome.returned 0)

/-- The function `int execute_command(char **args)`, `args` given as the strings of the
NULL-terminated array. -/
def execute_command (sys : Sys) (args : List (List Char)) : Option (List Ev × Outcome) :=
  -- pid = fork(); if (pid < 0) { perror("fork"); return -1; }
  if sys.forkRet < 0 then
    some ([Ev.enter args, Ev.fork, Ev.perror "fork".toList], Outcome.returned (-1))
  -- else if (pid == 0): the child
  else if sys.forkRet = 0 then
    match child sys args with
    | none => none
    | some r => some (Ev.enter args :: Ev.fork :: r.1, r.2)
  -- else: if (wait(&status) == -1) { perror("wait"); return -1; }  return 0;
  else if sys.waitRet = -1 then
    some ([Ev.enter args, Ev.fork, Ev.wait, Ev.perror "wait".toList], Outcome.returned (-1))
  else
    some ([Ev.enter args, Ev.fork, Ev.wait], Outcome.returned 0)

/-! ## main -/

/-- How one pass through the body of `while (1)` ends. -/
inductive Flow where
  | again
  | leave
  | ended (o : Outcome)
  deriving DecidableEq, Repr

/-- The result of one pass through the loop body. -/
structure Iter where
  evs : List Ev
  flow : Flow
  args : List (Option Nat)
  deriving DecidableEq, Repr

/-- The two statements `printf("mysh> "); fflush(stdout);`. -/
def prompt : List Ev := [Ev.out "mysh> ".toList, Ev.flush]

/-- The loop body of `main` after `fgets` has filled `input`: steps 3 to 6.
`none` when `parse_input` faults or `args[0]` is NULL at the `strcmp`. -/
def main_body (sys : Sys) (input : List Char) (args : List (Option Nat)) : Option Iter :=
  -- num_args = parse_input(input, args);
  match parse_input input args with
  | Parsed.fault _ => none
  | Parsed.ok num_args buf args1 =>
    -- if (num_args == 0) continue;
    if num_args = 0 then some ⟨[], Flow.again, args1⟩
    else
      match args1 with
      | some p :: _ =>
        -- if (strcmp(args[0], "exit") == 0) { printf("Exiting mysh...\n"); break; }
        if cstr buf p = "exit".toList then
          some ⟨[Ev.out "Exiting mysh...\n".toList], Flow.leave, args1⟩
        else
          -- execute_command(args); the value it returns is not looked at
          match execute_command sys (argv buf args1) with
          | none => none
          | some (evs, Outcome.returned _) => some ⟨evs, Flow.again, args1⟩
          | some (evs, o) => some ⟨evs, Flow.ended o, args1⟩
      | _ => none

/-- The `while (1)` loop of `main` and the `return 0` after it.  `stdin` lists
the buffers as successive `fgets(input, sizeof(input), stdin)` calls fill them;
after the last one `fgets` returns NULL.  `sys k` is what the operating system
answers in pass `k`. -/
def main_loop (sys : Nat → Sys) : Nat → List (Option Nat) → List (List Char) →
    Option (List Ev × Outcome)
  -- fgets(...) == NULL: printf("\n"); break; and then return 0
  | _, _, [] => some (prompt ++ [Ev.out ['\n']], Outcome.returned 0)
  | k, args, input :: rest =>
    match main_body (sys k) input args with
    | none => none
    | some it =>
      match it.flow with
      | Flow.leave => some (prompt ++ it.evs, Outcome.returned 0)
      | Flow.ended o => some (prompt ++ it.evs, o)
      | Flow.again =>
        match main_loop sys (k + 1) it.args rest with
        | none => none
        | some r => some (prompt ++ it.evs ++ r.1, r.2)

/-- The function `int main()`, started with whatever the `args` array holds. -/
def main (sys : Nat → Sys) (args : List (Option Nat)) (stdin : List (List Char)) :
    Option (List Ev × Outcome) :=
  main_loop sys 0 args stdin

/-- The paths handed to `execv`, in order. -/
def attempts : List Ev → List (List Char)
  | [] => []
  | Ev.execv path _ :: evs => path :: attempts evs
  | _ :: evs => attempts evs

/-- The argument vectors `execute_command` was entered with, in order. -/
def calls : List Ev → List (List (List Char))
  | [] => []
  | Ev.enter args :: evs => args :: calls evs
  | _ :: evs => calls evs

/-! ## The tokenizer as the specification words it -/

/-- Space and tab, the two separators, without distinction. -/
def isSep (c : Char) : Bool := c == ' ' || c == '\t'

/-- The maximal runs of non-separator characters of a text, left to right:
the pieces between separators, the empty ones left out. -/
def runs (s : List Char) : List (List Char) :=
  (s.splitOnP isSep).filter (fun t => !t.isEmpty)

/-- The line without its final line terminator, when it has one. -/
def stripNewline (line : List Char) : List Char :=
  if line.getLast? = some '\n' then line.dropLast else line

/-- The tokenizer of the specification: strip the trailing newline, split on
runs of separators, keep at most `MAX_ARGS - 1` tokens. -/
def tokenize (line : List Char) : List (List Char) :=
  (runs (stripNewline line)).take (MAX_ARGS - 1)

/-- The text of the line that `parse_input` splits: the C string at `input`,
cut at its first newline. -/
def beforeNewline (line : List Char) : List Char :=
  line.takeWhile (fun c => c != '\n')


/-- The tokens still to come in the loop: the one `strtok` just returned and
the runs of the text at the save pointer. -/
def pend (buf : List Char) (olds : Nat) (token : Option Nat) : List (List Char) :=
  match token with
  | none => []
  | some t => cstr buf t :: runs (cstr buf olds)


/-! ## List lemmas -/

theorem takeWhile_drop_of_le {α : Type} (f : α → Bool) :
    ∀ (l : List α) (k : Nat), k ≤ (l.takeWhile f).length →
      (l.drop k).takeWhile f = (l.takeWhile f).drop k
  | _, 0, _ => by simp
  | [], _ + 1, _ => by simp
  | a :: l, k + 1, h => by
    by_cases ha : f a = true
    · simp only [List.takeWhile_cons_of_pos ha, List.length_cons, Nat.add_le_add_iff_right] at h
      simp only [List.drop_succ_cons, List.takeWhile_cons_of_pos ha]
      exact takeWhile_drop_of_le f l k h
    · simp [List.takeWhile_cons_of_neg ha] at h

theorem takeWhile_set_stop {α : Type} (f : α → Bool) (z : α) (hz : f z = false) :
    ∀ (l : List α) (j : Nat), (l.set j z).takeWhile f = (l.takeWhile f).take j
  | [], _ => by simp
  | a :: l, 0 => by simp [List.takeWhile_cons, hz]
  | a :: l, j + 1 => by
    by_cases ha : f a = true
    · simp only [List.set_cons_succ, List.takeWhile_cons_of_pos ha, List.take_succ_cons]
      rw [takeWhile_set_stop f z hz l j]
    · simp [List.takeWhile_cons_of_neg ha]

theorem drop_length_takeWhile {α : Type} (f : α → Bool) :
    ∀ l : List α, l.drop (l.takeWhile f).length = l.dropWhile f
  | [] => by simp
  | a :: l => by
    by_cases ha : f a = true
    · simp [List.takeWhile_cons_of_pos ha, List.dropWhile_cons_of_pos ha,
        drop_length_takeWhile f l]
    · simp [List.takeWhile_cons_of_neg ha, List.dropWhile_cons_of_neg ha]

theorem take_length_takeWhile {α : Type} (f : α → Bool) :
    ∀ l : List α, l.take (l.takeWhile f).length = l.takeWhile f
  | [] => by simp
  | a :: l => by
    by_cases ha : f a = true
    · simp [List.takeWhile_cons_of_pos ha, take_length_takeWhile f l]
    · simp [List.takeWhile_cons_of_neg ha]

theorem length_takeWhile_le {α : Type} (f : α → Bool) (l : List α) :
    (l.takeWhile f).length ≤ l.length := by
  have h := congrArg List.length (List.takeWhile_append_dropWhile f l)
  simp only [List.length_append] at h
  omega

theorem takeWhile_eq_self_of_dropWhile_nil {α : Type} (f : α → Bool) (l : List α)
    (h : l.dropWhile f = []) : l.takeWhile f = l := by
  have h2 := List.takeWhile_append_dropWhile f l
  rw [h] at h2
  simpa using h2

/-! ## Buffer lemmas -/

theorem cstr_eq_nil_iff (buf : List Char) (p : Nat) : cstr buf p = [] ↔ peek buf p = NUL := by
  unfold cstr peek
  rcases hd : buf.drop p with _ | ⟨a, l⟩
  · have hlen : buf.length ≤ p := by
      have := congrArg List.length hd
      simp at this
      omega
    simp [List.getD_eq_getElem?_getD, List.getElem?_eq_none hlen]
  · have hget : buf[p]? = some a := by
      have := congrArg (fun l => l[0]?) hd
      simpa using this
    by_cases ha : a = NUL
    · simp [List.getD_eq_getElem?_getD, hget, ha, List.takeWhile_cons]
    · simp [List.getD_eq_getElem?_getD, hget, ha, List.takeWhile_cons]

theorem cstr_add (buf : List Char) (p k : Nat) (h : k ≤ (cstr buf p).length) :
    cstr buf (p + k) = (cstr buf p).drop k := by
  unfold cstr at h ⊢
  rw [← takeWhile_drop_of_le _ _ _ h, List.drop_drop]

theorem cstr_set_NUL (buf : List Char) (p e : Nat) (h : p ≤ e) :
    cstr (buf.set e NUL) p = (cstr buf p).take (e - p) := by
  unfold cstr
  have hd : (buf.set e NUL).drop p = (buf.drop p).set (e - p) NUL := by
    rw [List.drop_set]
    simp [Nat.not_lt.mpr h]
  rw [hd]
  exact takeWhile_set_stop _ NUL (by simp) _ _

theorem cstr_set_before (buf : List Char) (e q : Nat) (c : Char) (h : e < q) :
    cstr (buf.set e c) q = cstr buf q := by
  unfold cstr
  rw [List.drop_set_of_lt _ _ h]

theorem cstr_set_NUL_stable (buf : List Char) (q e : Nat)
    (h : q + (cstr buf q).length ≤ e) : cstr (buf.set e NUL) q = cstr buf q := by
  rw [cstr_set_NUL buf q e (by omega)]
  exact List.take_of_length_le (by omega)

/-! ## Lemmas on `runs` -/

theorem splitOnP_head_tail (p : Char → Bool) : ∀ s : List Char,
    s.splitOnP p = s.takeWhile (fun c => !p c) ::
      (match s.dropWhile (fun c => !p c) with
       | [] => []
       | _ :: r => r.splitOnP p)
  | [] => by simp [List.splitOnP_nil]
  | a :: s => by
    rw [List.splitOnP_cons]
    by_cases ha : p a = true
    · simp [ha, List.takeWhile_cons, List.dropWhile_cons]
    · have ih := splitOnP_head_tail p s
      simp only [ha, Bool.false_eq_true, ↓reduceIte]
      rw [ih]
      simp [ha, List.takeWhile_cons, List.dropWhile_cons, List.modifyHead]

theorem runs_nil : runs [] = [] := by
  simp [runs, List.splitOnP_nil]

theorem runs_cons_sep (c : Char) (s : List Char) (h : isSep c = true) :
    runs (c :: s) = runs s := by
  simp [runs, List.splitOnP_cons, h]

theorem runs_dropWhile_sep : ∀ s : List Char, runs (s.dropWhile isSep) = runs s
  | [] => by simp
  | a :: s => by
    by_cases ha : isSep a = true
    · rw [List.dropWhile_cons_of_pos ha, runs_cons_sep a s ha]
      exact runs_dropWhile_sep s
    · rw [List.dropWhile_cons_of_neg ha]

theorem runs_cons_nonsep (c : Char) (s : List Char) (h : isSep c = false) :
    runs (c :: s) = (c :: s).takeWhile (fun c => !isSep c) ::
      runs ((c :: s).dropWhile (fun c => !isSep c)).tail := by
  have hs := splitOnP_head_tail isSep (c :: s)
  unfold runs
  rw [hs]
  have hne : ((c :: s).takeWhile (fun c => !isSep c)).isEmpty = false := by
    simp [List.takeWhile_cons, h]
  rw [List.filter_cons_of_pos (by simp [hne])]
  congr 1
  rcases hd : (c :: s).dropWhile (fun c => !isSep c) with _ | ⟨d, r⟩
  · simp [List.splitOnP_nil]
  · simp

/-- One unfolding of `runs`: skip the separators, take the run, go on after
the separator that ended it. -/
theorem runs_unfold (s : List Char) :
    runs s = match s.dropWhile isSep with
      | [] => []
      | c :: r => (c :: r).takeWhile (fun c => !isSep c) ::
          runs ((c :: r).dropWhile (fun c => !isSep c)).tail := by
  rw [← runs_dropWhile_sep s]
  rcases hd : s.dropWhile isSep with _ | ⟨c, r⟩
  · exact runs_nil
  · have hc : isSep c = false := by
      have := List.head_dropWhile_not isSep s (by simp [hd])
      simpa [hd] using this
    exact runs_cons_nonsep c r hc

theorem runs_mem_aux : ∀ (n : Nat) (s : List Char), s.length ≤ n →
    ∀ t ∈ runs s, t ≠ [] ∧ (∀ c ∈ t, isSep c = false) ∧ (∀ c ∈ t, c ∈ s)
  | 0, s, hs => by
    have : s = [] := List.length_eq_zero.mp (by omega)
    subst this
    simp [runs_nil]
  | n + 1, s, hs => by
    intro t ht
    rw [runs_unfold] at ht
    rcases hd : s.dropWhile isSep with _ | ⟨c, r⟩
    · simp [hd] at ht
    · rw [hd] at ht
      have hsub : ∀ x ∈ c :: r, x ∈ s := by
        intro x hx
        have : x ∈ s.dropWhile isSep := by rw [hd]; exact hx
        exact (List.dropWhile_sublist isSep).subset this
      have hlen : (c :: r).length ≤ s.length := by
        rw [← hd]; exact (List.dropWhile_sublist isSep).length_le
      have hc : isSep c = false := by
        have := List.head_dropWhile_not isSep s (by simp [hd])
        simpa [hd] using this
      simp only [List.mem_cons] at ht
      rcases ht with rfl | ht
      · refine ⟨by simp [List.takeWhile_cons, hc], ?_, ?_⟩
        · intro x hx
          have := List.mem_takeWhile_imp hx
          simpa using this
        · intro x hx
          exact hsub x ((List.takeWhile_sublist _).subset hx)
      · have hlen2 : ((c :: r).dropWhile (fun c => !isSep c)).tail.length ≤ n := by
          have h1 : ((c :: r).dropWhile (fun c => !isSep c)).length ≤ r.length := by
            rw [List.dropWhile_cons_of_pos (by simp [hc])]
            exact (List.dropWhile_sublist _).length_le
          simp only [List.length_tail]
          simp only [List.length_cons] at hlen
          omega
        obtain ⟨h1, h2, h3⟩ := runs_mem_aux n _ hlen2 t ht
        refine ⟨h1, h2, ?_⟩
        intro x hx
        apply hsub
        exact (List.dropWhile_sublist _).subset (List.mem_of_mem_tail (h3 x hx))

theorem runs_mem (s t : List Char) (ht : t ∈ runs s) :
    t ≠ [] ∧ (∀ c ∈ t, isSep c = false) ∧ (∀ c ∈ t, c ∈ s) :=
  runs_mem_aux s.length s (Nat.le_refl _) t ht

/-! ## What one `strtok` call does -/

theorem contains_delims (c : Char) : delims.contains c = isSep c := by
  by_cases h1 : c = ' ' <;> by_cases h2 : c = '\t' <;> simp [delims, isSep, h1, h2]

theorem strspn_delims (buf : List Char) (p : Nat) :
    strspn buf p delims = ((cstr buf p).takeWhile isSep).length := by
  unfold strspn
  congr 2
  funext c
  exact contains_delims c

theorem strcspn_delims (buf : List Char) (p : Nat) :
    strcspn buf p delims = ((cstr buf p).takeWhile (fun c => !isSep c)).length := by
  unfold strcspn
  congr 2
  funext c
  rw [contains_delims]

theorem strtok_spec (buf : List Char) (olds : Nat) (s : Option Nat) :
    pend (strtok buf olds s delims).2.1 (strtok buf olds s delims).2.2
        (strtok buf olds s delims).1 = runs (cstr buf (s.getD olds)) ∧
    s.getD olds ≤ (strtok buf olds s delims).2.2 ∧
    (∀ t, (strtok buf olds s delims).1 = some t →
        t + (cstr (strtok buf olds s delims).2.1 t).length ≤ (strtok buf olds s delims).2.2) ∧
    (∀ q, q + (cstr buf q).length ≤ s.getD olds →
        cstr (strtok buf olds s delims).2.1 q = cstr buf q) := by
  generalize hp : s.getD olds = p
  generalize hr : cstr buf p = r
  have hk1 : strspn buf p delims = (r.takeWhile isSep).length := by
    rw [strspn_delims, hr]
  have hk1le : (r.takeWhile isSep).length ≤ (cstr buf p).length := by
    rw [hr]; exact length_takeWhile_le _ _
  have hr1 : cstr buf (p + (r.takeWhile isSep).length) = r.dropWhile isSep := by
    rw [cstr_add buf p _ hk1le, hr, drop_length_takeWhile]
  by_cases h0 : peek buf p = NUL
  · have hnil : r = [] := by rw [← hr]; exact (cstr_eq_nil_iff buf p).mpr h0
    have he : strtok buf olds s delims = (none, buf, p) := by
      simp [strtok, hp, h0]
    rw [he]
    simp [pend, hnil, runs_nil]
  · by_cases h1 : peek buf (p + (r.takeWhile isSep).length) = NUL
    · have he : strtok buf olds s delims = (none, buf, p + (r.takeWhile isSep).length) := by
        simp [strtok, hp, h0, hk1, h1]
      have hd : r.dropWhile isSep = [] := by
        rw [← hr1]; exact (cstr_eq_nil_iff _ _).mpr h1
      rw [he]
      refine ⟨?_, by simp, by simp, by simp⟩
      rw [runs_unfold, hd]
      simp [pend]
    · generalize hs1 : p + (r.takeWhile isSep).length = s1 at h1 hr1
      generalize hr1' : r.dropWhile isSep = r1 at hr1
      have hr1ne : r1 ≠ [] := by
        intro h
        exact h1 ((cstr_eq_nil_iff _ _).mp (by rw [hr1, h]))
      have hk2 : strcspn buf s1 delims = (r1.takeWhile (fun c => !isSep c)).length := by
        rw [strcspn_delims, hr1]
      have hk2le : (r1.takeWhile (fun c => !isSep c)).length ≤ (cstr buf s1).length := by
        rw [hr1]; exact length_takeWhile_le _ _
      have hr2 : cstr buf (s1 + (r1.takeWhile (fun c => !isSep c)).length)
          = r1.dropWhile (fun c => !isSep c) := by
        rw [cstr_add buf s1 _ hk2le, hr1, drop_length_takeWhile]
      have hrun : runs r = r1.takeWhile (fun c => !isSep c) ::
          runs (r1.dropWhile (fun c => !isSep c)).tail := by
        rw [runs_unfold, hr1']
        rcases r1 with _ | ⟨c, r'⟩
        · exact absurd rfl hr1ne
        · rfl
      by_cases h2 : peek buf (s1 + (r1.takeWhile (fun c => !isSep c)).length) = NUL
      · have he : strtok buf olds s delims
            = (some s1, buf, s1 + (r1.takeWhile (fun c => !isSep c)).length) := by
          simp [strtok, hp, h0, hk1, hs1, h1, hk2, h2]
        have hd : r1.dropWhile (fun c => !isSep c) = [] := by
          rw [← hr2]; exact (cstr_eq_nil_iff _ _).mpr h2
        have ht : r1.takeWhile (fun c => !isSep c) = r1 :=
          takeWhile_eq_self_of_dropWhile_nil _ _ hd
        rw [he]
        refine ⟨?_, by simp; omega, ?_, by simp⟩
        · simp only [pend]
          rw [hrun, hr2, hr1, hd, ht]
          rfl
        · intro t htt
          simp only [Option.some.injEq] at htt
          subst htt
          simp only [hr1, ht]
          exact Nat.le_refl _
      · generalize he' : s1 + (r1.takeWhile (fun c => !isSep c)).length = e at h2 hr2
        have he : strtok buf olds s delims = (some s1, buf.set e NUL, e + 1) := by
          simp [strtok, hp, h0, hk1, hs1, h1, hk2, he', h2]
        have hdne : r1.dropWhile (fun c => !isSep c) ≠ [] := by
          intro h
          exact h2 ((cstr_eq_nil_iff _ _).mp (by rw [hr2, h]))
        have htok : cstr (buf.set e NUL) s1 = r1.takeWhile (fun c => !isSep c) := by
          rw [cstr_set_NUL buf s1 e (by omega), hr1]
          have : e - s1 = (r1.takeWhile (fun c => !isSep c)).length := by omega
          rw [this, take_length_takeWhile]
        have hrest : cstr (buf.set e NUL) (e + 1) = (r1.dropWhile (fun c => !isSep c)).tail := by
          rw [cstr_set_before buf e (e + 1) NUL (by omega)]
          have hlen : 1 ≤ (cstr buf e).length := by
            rw [hr2]
            exact Nat.pos_of_ne_zero (fun h => hdne (List.length_eq_zero.mp h))
          rw [cstr_add buf e 1 hlen, hr2, List.drop_one]
        rw [he]
        refine ⟨?_, by simp; omega, ?_, ?_⟩
        · simp only [pend]
          rw [hrun, htok, hrest]
        · intro t htt
          simp only [Option.some.injEq] at htt
          subst htt
          simp only [htok]
          omega
        · intro q hq
          exact cstr_set_NUL_stable buf q e (by omega)

/-! ## What `parse_input` does -/

theorem take_succ_set_self {α : Type} (l : List α) (i : Nat) (v : α) (h : i < l.length) :
    (l.set i v).take (i + 1) = l.take i ++ [v] := by
  rw [List.set_eq_take_append_cons_drop, if_pos h]
  have hlen : (l.take i).length = i := by simp; omega
  rw [List.take_append_eq_append_take, hlen]
  simp

theorem parse_loop_spec : ∀ (fuel : Nat) (buf : List Char) (olds : Nat) (token : Option Nat)
    (i : Nat) (args : List (Option Nat)),
    args.length = MAX_ARGS → i ≤ MAX_ARGS - 1 → MAX_ARGS - i ≤ fuel →
    (∀ t, token = some t → t + (cstr buf t).length ≤ olds) →
    ∃ (ptrs : List Nat) (buf' : List Char),
      parse_loop fuel buf olds token i args =
        Parsed.ok (i + ptrs.length) buf'
          (args.take i ++ ptrs.map some ++ args.drop (i + ptrs.length)) ∧
      ptrs.map (cstr buf') = (pend buf olds token).take (MAX_ARGS - 1 - i) ∧
      (∀ q, q + (cstr buf q).length ≤ olds → cstr buf' q = cstr buf q)
  | 0, _, _, _, i, _, _, hi, hfuel, _ => by
    simp only [MAX_ARGS] at hi hfuel
    omega
  | fuel + 1, buf, olds, none, i, args, _, _, _, _ => by
    refine ⟨[], buf, ?_, ?_, fun _ _ => rfl⟩
    · simp [parse_loop]
    · simp [pend]
  | fuel + 1, buf, olds, some t, i, args, hlen, hi, hfuel, htok => by
    by_cases hlt : i < MAX_ARGS - 1
    · have hst : store args i (some t) = some (args.set i (some t)) := by
        have : i < args.length := by rw [hlen]; simp only [MAX_ARGS] at hlt ⊢; omega
        simp [store, this]
      obtain ⟨hpend, hmono, hinv, hstable⟩ := strtok_spec buf olds none
      simp only [Option.getD_none] at hpend hmono hstable
      have hfuel' : MAX_ARGS - (i + 1) ≤ fuel := by
        simp only [MAX_ARGS] at hfuel hlt ⊢; omega
      obtain ⟨ptrs, buf', hres, hmap, hst'⟩ :=
        parse_loop_spec fuel (strtok buf olds none delims).2.1 (strtok buf olds none delims).2.2
          (strtok buf olds none delims).1 (i + 1) (args.set i (some t))
          (by simpa using hlen) (by simp only [MAX_ARGS] at hlt ⊢; omega) hfuel' hinv
      have ht1 : cstr (strtok buf olds none delims).2.1 t = cstr buf t :=
        hstable t (htok t rfl)
      have ht2 : cstr buf' t = cstr buf t := by
        rw [hst' t (by rw [ht1]; have := htok t rfl; omega), ht1]
      refine ⟨t :: ptrs, buf', ?_, ?_, ?_⟩
      · have hunf : parse_loop (fuel + 1) buf olds (some t) i args
            = parse_loop fuel (strtok buf olds none delims).2.1
                (strtok buf olds none delims).2.2 (strtok buf olds none delims).1 (i + 1)
                (args.set i (some t)) := by
          simp [parse_loop, hlt, hst]
        rw [hunf, hres]
        have hil : i < args.length := by rw [hlen]; simp only [MAX_ARGS] at hlt ⊢; omega
        have h1 : (args.set i (some t)).take (i + 1) = args.take i ++ [some t] :=
          take_succ_set_self args i (some t) hil
        have h2 : (args.set i (some t)).drop (i + 1 + ptrs.length)
            = args.drop (i + 1 + ptrs.length) :=
          List.drop_set_of_lt _ _ (by omega)
        rw [h1, h2]
        have h3 : i + 1 + ptrs.length = i + (t :: ptrs).length := by
          simp only [List.length_cons]; omega
        rw [h3]
        simp
      · have hpos : MAX_ARGS - 1 - i = (MAX_ARGS - 1 - (i + 1)) + 1 := by
          simp only [MAX_ARGS] at hlt ⊢; omega
        rw [hpos]
        simp only [pend, List.take_succ_cons, List.map_cons, ht2]
        rw [hmap, hpend]
      · intro q hq
        rw [hst' q (by rw [hstable q hq]; omega), hstable q hq]
    · have hi63 : MAX_ARGS - 1 - i = 0 := by
        simp only [MAX_ARGS] at hi hlt ⊢; omega
      refine ⟨[], buf, ?_, ?_, fun _ _ => rfl⟩
      · simp [parse_loop, hlt]
      · simp [hi63]

theorem cstr_strip (input : List Char) :
    cstr (input.set (strcspn input 0 ['\n']) NUL) 0 = beforeNewline (cstr input 0) := by
  rw [cstr_set_NUL input 0 _ (Nat.zero_le _)]
  have hf : (fun c : Char => !(['\n'].contains c)) = (fun c => c != '\n') := by
    funext c
    by_cases h : c = '\n' <;> simp [h]
  unfold strcspn beforeNewline
  rw [hf]
  simp only [Nat.sub_zero]
  exact take_length_takeWhile _ _

/-- The whole of `parse_input`: with a 64-slot array it never faults, it
returns the number of pointers stored, the array holds those pointers followed
by the NULL sentinel, and the strings at the pointers are the first 63 runs of
the text before the first newline. -/
theorem parse_input_spec (input : List Char) (args : List (Option Nat))
    (hlen : args.length = MAX_ARGS) :
    ∃ (ptrs : List Nat) (buf' : List Char),
      parse_input input args =
        Parsed.ok ptrs.length buf' (ptrs.map some ++ none :: args.drop (ptrs.length + 1)) ∧
      ptrs.map (cstr buf') = (runs (beforeNewline (cstr input 0))).take (MAX_ARGS - 1) := by
  obtain ⟨hpend, -, hinv, -⟩ :=
    strtok_spec (input.set (strcspn input 0 ['\n']) NUL) 0 (some 0)
  simp only [Option.getD_some] at hpend
  rw [cstr_strip] at hpend
  obtain ⟨ptrs, buf', hres, hmap, -⟩ :=
    parse_loop_spec MAX_ARGS _ _ _ 0 args hlen (Nat.zero_le _) (by simp) hinv
  rw [hpend] at hmap
  have hn : ptrs.length ≤ MAX_ARGS - 1 := by
    have := congrArg List.length hmap
    simp only [List.length_map, List.length_take] at this
    omega
  refine ⟨ptrs, buf', ?_, by simpa using hmap⟩
  have hlt : ptrs.length < (ptrs.map some ++ args.drop ptrs.length).length := by
    simp only [List.length_append, List.length_map, List.length_drop, hlen]
    simp only [MAX_ARGS] at hn ⊢
    omega
  have hset : (ptrs.map some ++ args.drop ptrs.length).set ptrs.length none
      = ptrs.map some ++ none :: args.drop (ptrs.length + 1) := by
    rw [List.set_append_right _ _ (by simp)]
    simp only [List.length_map, Nat.sub_self]
    have hd : args.drop ptrs.length ≠ [] := by
      intro h
      have := congrArg List.length h
      simp only [List.length_drop, hlen, List.length_nil] at this
      simp only [MAX_ARGS] at hn this
      omega
    rcases hdr : args.drop ptrs.length with _ | ⟨a, rest⟩
    · exact absurd hdr hd
    · have : args.drop (ptrs.length + 1) = rest := by
        rw [← List.drop_drop, hdr]; rfl
      simp [this]
  simp only [Nat.zero_add, List.take_zero, List.nil_append] at hres
  simp only [parse_input, hres, store, hlt, ↓reduceIte, hset]


/-! ## Consequences for the tokenizer -/

theorem argv_ptrs (buf : List Char) (rest : List (Option Nat)) :
    ∀ ptrs : List Nat, argv buf (ptrs.map some ++ none :: rest) = ptrs.map (cstr buf)
  | [] => rfl
  | p :: ptrs => by
    show cstr buf p :: argv buf (ptrs.map some ++ none :: rest)
      = cstr buf p :: ptrs.map (cstr buf)
    rw [argv_ptrs buf rest ptrs]

theorem beforeNewline_eq_stripNewline (line : List Char) (h : '\n' ∉ line.dropLast) :
    beforeNewline line = stripNewline line := by
  rcases List.eq_nil_or_concat line with rfl | ⟨l, a, rfl⟩
  · rfl
  · rw [List.concat_eq_append] at h ⊢
    rw [List.dropLast_concat] at h
    have hall : ∀ c ∈ l, (c != '\n') = true := by
      intro c hc
      have : c ≠ '\n' := fun e => h (e ▸ hc)
      simpa using this
    unfold beforeNewline stripNewline
    rw [List.takeWhile_append_of_pos hall, List.getLast?_concat, List.dropLast_concat]
    by_cases ha : a = '\n'
    · simp [ha]
    · simp [ha]

theorem runs_all_sep : ∀ ws : List Char, (∀ c ∈ ws, isSep c = true) → runs ws = []
  | [], _ => runs_nil
  | c :: ws, h => by
    rw [runs_cons_sep c ws (h c (List.mem_cons_self _ _))]
    exact runs_all_sep ws (fun d hd => h d (List.mem_cons_of_mem _ hd))

theorem not_isSep_iff (c : Char) : isSep c = false ↔ c ≠ ' ' ∧ c ≠ '\t' := by
  by_cases h1 : c = ' ' <;> by_cases h2 : c = '\t' <;> simp [isSep, h1, h2]

theorem isSep_iff (c : Char) : isSep c = true ↔ c = ' ' ∨ c = '\t' := by
  by_cases h1 : c = ' ' <;> by_cases h2 : c = '\t' <;> simp [isSep, h1, h2]

/-- The array `parse_input` leaves: the pointers, the sentinel, the old rest. -/
theorem parsed_array_facts (ptrs : List Nat) (args : List (Option Nat))
    (hlen : args.length = MAX_ARGS) (hn : ptrs.length ≤ MAX_ARGS - 1) :
    (ptrs.map some ++ none :: args.drop (ptrs.length + 1)).length = MAX_ARGS ∧
    (ptrs.map some ++ none :: args.drop (ptrs.length + 1))[ptrs.length]? = some none ∧
    (∀ j, j < ptrs.length →
      (ptrs.map some ++ none :: args.drop (ptrs.length + 1))[j]? = (ptrs[j]?).map some) := by
  refine ⟨?_, ?_, ?_⟩
  · simp only [List.length_append, List.length_map, List.length_cons, List.length_drop, hlen]
    simp only [MAX_ARGS] at hn ⊢
    omega
  · rw [List.getElem?_append_right (by simp)]
    simp
  · intro j hj
    rw [List.getElem?_append_left (by simpa using hj)]
    simp


/-- With a one-slot array the second store of `parse_input` is out of bounds:
the bounds check of the embedding is live. -/
theorem parse_input_short_array_faults :
    parse_input "a b".toList [none] = Parsed.fault Fault.outOfBounds := by
  decide

/-! ## The claims on the tokenizer -/

/-- C1: for an input line whose only newline, if any, is its last character,
`parse_input` (called with the 64-slot array) returns without fault and the
strings it leaves in `args`, read in order up to the sentinel, are exactly the
tokens of the specification's tokenizer: the maximal runs of characters that
are neither space nor tab of the line without its final newline, the first 63
of them; no token is empty and none contains a space or a tab. -/
theorem parse_input_yields_maximal_runs (input : List Char) (args : List (Option Nat))
    (hargs : args.length = MAX_ARGS) (hnl : '\n' ∉ (cstr input 0).dropLast) :
    ∃ (buf : List Char) (args1 : List (Option Nat)),
      parse_input input args = Parsed.ok (tokenize (cstr input 0)).length buf args1 ∧
      argv buf args1 = tokenize (cstr input 0) ∧
      (∀ t ∈ argv buf args1, t ≠ [] ∧ ' ' ∉ t ∧ '\t' ∉ t) := by
  obtain ⟨ptrs, buf, hres, hmap⟩ := parse_input_spec input args hargs
  rw [beforeNewline_eq_stripNewline _ hnl] at hmap
  have hargv : argv buf (ptrs.map some ++ none :: args.drop (ptrs.length + 1))
      = tokenize (cstr input 0) := by
    rw [argv_ptrs, hmap]; rfl
  have hlen : ptrs.length = (tokenize (cstr input 0)).length := by
    have := congrArg List.length hmap
    simpa [tokenize] using this
  refine ⟨buf, _, ?_, hargv, ?_⟩
  · rw [← hlen]; exact hres
  · intro t ht
    rw [hargv] at ht
    obtain ⟨h1, h2, -⟩ := runs_mem _ t (List.mem_of_mem_take ht)
    refine ⟨h1, fun h => ?_, fun h => ?_⟩
    · exact ((not_isSep_iff _).mp (h2 _ h)).1 rfl
    · exact ((not_isSep_iff _).mp (h2 _ h)).2 rfl

/-- C1, at the line of the specification's example: two leading blanks, `ls`,
three blanks, `-la`, two trailing blanks give the tokens `ls` and `-la`. -/
theorem parse_input_yields_maximal_runs_witness :
    ∃ (buf : List Char) (args1 : List (Option Nat)),
      parse_input "  ls   -la  ".toList args0 = Parsed.ok 2 buf args1 ∧
      argv buf args1 = ["ls".toList, "-la".toList] ∧
      (∀ t ∈ argv buf args1, t ≠ [] ∧ ' ' ∉ t ∧ '\t' ∉ t) :=
  parse_input_yields_maximal_runs "  ls   -la  ".toList args0 (by decide) (by decide)

/-- C6: for an input line with `k` tokens (the runs of the line without its
final newline), `parse_input` on the 64-slot array returns `n = min k 63`
without fault; slots `0 .. n-1` hold pointers to the first `n` tokens in order,
slot `n` holds the NULL sentinel, `n ≤ 63`, and the array still has its 64
slots: every store, the sentinel included, was inside the array, and the
tokens after the 63rd are dropped without an error. -/
theorem parse_input_count_and_sentinel (input : List Char) (args : List (Option Nat))
    (hargs : args.length = MAX_ARGS) (hnl : '\n' ∉ (cstr input 0).dropLast) :
    ∃ (buf : List Char) (args1 : List (Option Nat)),
      parse_input input args
        = Parsed.ok (min (runs (stripNewline (cstr input 0))).length (MAX_ARGS - 1)) buf args1 ∧
      min (runs (stripNewline (cstr input 0))).length (MAX_ARGS - 1) ≤ 63 ∧
      args1.length = 64 ∧
      (∀ j, j < min (runs (stripNewline (cstr input 0))).length (MAX_ARGS - 1) →
        ∃ p, args1[j]? = some (some p) ∧
          (runs (stripNewline (cstr input 0)))[j]? = some (cstr buf p)) ∧
      args1[min (runs (stripNewline (cstr input 0))).length (MAX_ARGS - 1)]? = some none := by
  obtain ⟨ptrs, buf, hres, hmap⟩ := parse_input_spec input args hargs
  rw [beforeNewline_eq_stripNewline _ hnl] at hmap
  have hlen : ptrs.length = min (runs (stripNewline (cstr input 0))).length (MAX_ARGS - 1) := by
    have := congrArg List.length hmap
    simp only [List.length_map, List.length_take] at this
    omega
  have hn : ptrs.length ≤ MAX_ARGS - 1 := by omega
  obtain ⟨f1, f2, f3⟩ := parsed_array_facts ptrs args hargs hn
  refine ⟨buf, _, ?_, ?_, f1, ?_, ?_⟩
  · rw [← hlen]; exact hres
  · rw [← hlen]; exact hn
  · intro j hj
    rw [← hlen] at hj
    refine ⟨ptrs.get ⟨j, hj⟩, ?_, ?_⟩
    · rw [f3 j hj]
      simp [List.getElem?_eq_getElem hj]
    · have h1 : (ptrs.map (cstr buf))[j]? = some (cstr buf (ptrs.get ⟨j, hj⟩)) := by
        simp [List.getElem?_eq_getElem hj]
      rw [hmap, List.getElem?_take_of_lt (by omega)] at h1
      exact h1
  · rw [← hlen]; exact f2

/-- C6, at a line of 70 one-letter tokens: 63 are kept, the sentinel is in
slot 63. -/
theorem parse_input_count_and_sentinel_witness :
    ∃ (buf : List Char) (args1 : List (Option Nat)),
      parse_input ((List.replicate 70 ['a', ' ']).flatten ++ ['\n']) args0
        = Parsed.ok 63 buf args1 ∧
      args1.length = 64 ∧ args1[63]? = some none := by
  obtain ⟨buf, args1, h1, -, h3, -, h5⟩ :=
    parse_input_count_and_sentinel ((List.replicate 70 ['a', ' ']).flatten ++ ['\n']) args0
      (by decide) (by decide)
  have hk : min (runs (stripNewline
      (cstr ((List.replicate 70 ['a', ' ']).flatten ++ ['\n']) 0))).length (MAX_ARGS - 1) = 63 := by
    decide
  rw [hk] at h1 h5
  exact ⟨buf, args1, h1, h3, h5⟩


/-- C7: for an input line that is empty or made only of spaces and tabs,
with or without a final newline, `parse_input` returns the count 0 with the
sentinel in `args[0]` and no token; the loop body then does nothing at all (no
`fork`, no output) and ends in `continue`, so the loop goes on with the prompt
of the next pass. -/
theorem blank_line_yields_nothing (input : List Char) (args : List (Option Nat))
    (ws : List Char) (hargs : args.length = MAX_ARGS)
    (hws : ∀ c ∈ ws, c = ' ' ∨ c = '\t')
    (hline : cstr input 0 = ws ∨ cstr input 0 = ws ++ ['\n']) :
    ∃ (buf : List Char) (args1 : List (Option Nat)),
      parse_input input args = Parsed.ok 0 buf args1 ∧
      args1[0]? = some none ∧ argv buf args1 = [] ∧
      (∀ sys : Sys, main_body sys input args = some ⟨[], Flow.again, args1⟩) ∧
      (∀ (sys : Nat → Sys) (k : Nat) (rest : List (List Char)),
        main_loop sys k args (input :: rest) =
          match main_loop sys (k + 1) args1 rest with
          | none => none
          | some r => some (prompt ++ r.1, r.2)) := by
  obtain ⟨ptrs, buf, hres, hmap⟩ := parse_input_spec input args hargs
  have hsep : ∀ c ∈ ws, isSep c = true := fun c hc => (isSep_iff c).mpr (hws c hc)
  have hnn : ∀ c ∈ ws, (c != '\n') = true := by
    intro c hc
    rcases hws c hc with h | h <;> simp [h]
  have hbn : beforeNewline (cstr input 0) = ws := by
    unfold beforeNewline
    rcases hline with h | h
    · rw [h]
      exact List.takeWhile_eq_self_iff.mpr hnn
    · rw [h, List.takeWhile_append_of_pos hnn]
      simp
  rw [hbn, runs_all_sep ws hsep] at hmap
  have hp : ptrs = [] := by simpa using hmap
  subst hp
  simp only [List.length_nil, List.map_nil, List.nil_append, Nat.zero_add] at hres
  have hbody : ∀ sys : Sys,
      main_body sys input args = some ⟨[], Flow.again, none :: args.drop 1⟩ := by
    intro sys
    simp [main_body, hres]
  refine ⟨buf, none :: args.drop 1, hres, by simp, rfl, hbody, ?_⟩
  intro sys k rest
  simp only [main_loop, hbody]
  rcases main_loop sys (k + 1) (none :: args.drop 1) rest with _ | r <;> simp

/-- C7, at a line of two blanks, a tab and the newline. -/
theorem blank_line_yields_nothing_witness :
    ∃ (buf : List Char) (args1 : List (Option Nat)),
      parse_input "  \t\n".toList args0 = Parsed.ok 0 buf args1 ∧
      args1[0]? = some none ∧ argv buf args1 = [] ∧
      (∀ sys : Sys, main_body sys "  \t\n".toList args0 = some ⟨[], Flow.again, args1⟩) ∧
      (∀ (sys : Nat → Sys) (k : Nat) (rest : List (List Char)),
        main_loop sys k args0 ("  \t\n".toList :: rest) =
          match main_loop sys (k + 1) args1 rest with
          | none => none
          | some r => some (prompt ++ r.1, r.2)) :=
  blank_line_yields_nothing "  \t\n".toList args0 "  \t".toList (by decide) (by decide)
    (by decide)

/-- C8: whatever the buffer holds, newlines in the middle included,
`parse_input` on the 64-slot array returns without fault and no token it
leaves contains a newline. -/
theorem no_token_contains_newline (input : List Char) (args : List (Option Nat))
    (hargs : args.length = MAX_ARGS) :
    ∃ (n : Nat) (buf : List Char) (args1 : List (Option Nat)),
      parse_input input args = Parsed.ok n buf args1 ∧
      ∀ t ∈ argv buf args1, '\n' ∉ t := by
  obtain ⟨ptrs, buf, hres, hmap⟩ := parse_input_spec input args hargs
  refine ⟨_, buf, _, hres, ?_⟩
  intro t ht hn
  rw [argv_ptrs, hmap] at ht
  obtain ⟨-, -, h3⟩ := runs_mem _ t (List.mem_of_mem_take ht)
  have := List.mem_takeWhile_imp (h3 _ hn)
  simp at this

/-- C8, at a buffer with a newline in the middle: only the text before it is
split, and the token found has no newline. -/
theorem no_token_contains_newline_witness :
    ∃ (n : Nat) (buf : List Char) (args1 : List (Option Nat)),
      parse_input "ab\ncd ef\n".toList args0 = Parsed.ok n buf args1 ∧
      ∀ t ∈ argv buf args1, '\n' ∉ t :=
  no_token_contains_newline "ab\ncd ef\n".toList args0 (by decide)


/-! ## What `execute_command` does -/

/-- The child branch, candidate by candidate. -/
theorem child_eq (sys : Sys) (a0 : List Char) (rest : List (List Char)) :
    child sys (a0 :: rest) =
      if sys.execOk a0 = true then
        some ([Ev.execv a0 (a0 :: rest)], Outcome.replaced a0)
      else if sys.execOk (snprintf MAX_INPUT "/bin/".toList a0) = true then
        some ([Ev.execv a0 (a0 :: rest),
          Ev.execv (snprintf MAX_INPUT "/bin/".toList a0) (a0 :: rest)],
          Outcome.replaced (snprintf MAX_INPUT "/bin/".toList a0))
      else if sys.execOk (snprintf MAX_INPUT "/usr/bin/".toList a0) = true then
        some ([Ev.execv a0 (a0 :: rest),
          Ev.execv (snprintf MAX_INPUT "/bin/".toList a0) (a0 :: rest),
          Ev.execv (snprintf MAX_INPUT "/usr/bin/".toList a0) (a0 :: rest)],
          Outcome.replaced (snprintf MAX_INPUT "/usr/bin/".toList a0))
      else if sys.execOk (snprintf MAX_INPUT "/usr/local/bin/".toList a0) = true then
        some ([Ev.execv a0 (a0 :: rest),
          Ev.execv (snprintf MAX_INPUT "/bin/".toList a0) (a0 :: rest),
          Ev.execv (snprintf MAX_INPUT "/usr/bin/".toList a0) (a0 :: rest),
          Ev.execv (snprintf MAX_INPUT "/usr/local/bin/".toList a0) (a0 :: rest)],
          Outcome.replaced (snprintf MAX_INPUT "/usr/local/bin/".toList a0))
      else
        some ([Ev.execv a0 (a0 :: rest),
          Ev.execv (snprintf MAX_INPUT "/bin/".toList a0) (a0 :: rest),
          Ev.execv (snprintf MAX_INPUT "/usr/bin/".toList a0) (a0 :: rest),
          Ev.execv (snprintf MAX_INPUT "/usr/local/bin/".toList a0) (a0 :: rest),
          Ev.err ("mysh: command not found: ".toList ++ a0 ++ ['\n'])],
          Outcome.exited EXIT_FAILURE) := by
  unfold child execv
  dsimp only
  generalize snprintf MAX_INPUT "/bin/".toList a0 = p2
  generalize snprintf MAX_INPUT "/usr/bin/".toList a0 = p3
  generalize snprintf MAX_INPUT "/usr/local/bin/".toList a0 = p4
  generalize "mysh: command not found: ".toList = msg
  by_cases h1 : sys.execOk a0 = true
  · simp [h1]
  · by_cases h2 : sys.execOk p2 = true
    · simp [h1, h2]
    · by_cases h3 : sys.execOk p3 = true
      · simp [h1, h2, h3]
      · by_cases h4 : sys.execOk p4 = true
        · simp [h1, h2, h3, h4]
        · simp [h1, h2, h3, h4]

theorem execute_command_child (sys : Sys) (args : List (List Char)) (h : sys.forkRet = 0) :
    execute_command sys args =
      match child sys args with
      | none => none
      | some r => some (Ev.enter args :: Ev.fork :: r.1, r.2) := by
  simp [execute_command, h]

theorem snprintf_path (pre a0 : List Char) :
    snprintf MAX_INPUT pre a0 = (pre ++ a0).take 1023 := rfl


theorem take_eq_self_of_short (pre a0 : List Char) (n : Nat) (h : pre.length + a0.length ≤ n) :
    (pre ++ a0).take n = pre ++ a0 :=
  List.take_of_length_le (by simpa using h)

theorem take_append_replicate (pre : List Char) (c : Char) (n m : Nat)
    (hm : pre.length + m = 1023) (hmn : m ≤ n) :
    (pre ++ List.replicate n c).take 1023 = pre ++ List.replicate m c := by
  rw [List.take_append_eq_append_take, List.take_of_length_le (by omega), List.take_replicate]
  congr 2
  omega

/-- The child when every `execv` fails: four attempts, the message, `exit`. -/
theorem all_fail_run (sys : Sys) (a0 : List Char) (rest : List (List Char))
    (hchild : sys.forkRet = 0) (hfail : ∀ p, sys.execOk p = false) :
    execute_command sys (a0 :: rest) =
      some ([Ev.enter (a0 :: rest), Ev.fork, Ev.execv a0 (a0 :: rest),
        Ev.execv (("/bin/".toList ++ a0).take 1023) (a0 :: rest),
        Ev.execv (("/usr/bin/".toList ++ a0).take 1023) (a0 :: rest),
        Ev.execv (("/usr/local/bin/".toList ++ a0).take 1023) (a0 :: rest),
        Ev.err ("mysh: command not found: ".toList ++ a0 ++ ['\n'])],
        Outcome.exited EXIT_FAILURE) := by
  rw [execute_command_child sys _ hchild, child_eq]
  simp only [hfail, Bool.false_eq_true, if_false]
  rfl

/-- Outside the child the call returns, with -1 or 0. -/
theorem execute_command_parent (sys : Sys) (args : List (List Char)) (h : sys.forkRet ≠ 0) :
    execute_command sys args =
      if sys.forkRet < 0 then
        some ([Ev.enter args, Ev.fork, Ev.perror "fork".toList], Outcome.returned (-1))
      else if sys.waitRet = -1 then
        some ([Ev.enter args, Ev.fork, Ev.wait, Ev.perror "wait".toList], Outcome.returned (-1))
      else some ([Ev.enter args, Ev.fork, Ev.wait], Outcome.returned 0) := by
  unfold execute_command
  simp only [h, if_false]

/-- In the child the call never returns: the process is replaced or exits. -/
theorem execute_command_child_outcome (sys : Sys) (a0 : List Char) (rest : List (List Char))
    (hchild : sys.forkRet = 0) :
    ∃ (evs : List Ev) (o : Outcome),
      execute_command sys (a0 :: rest) = some (Ev.enter (a0 :: rest) :: Ev.fork :: evs, o) ∧
      calls evs = [] ∧
      ((∃ p, o = Outcome.replaced p ∧ sys.execOk p = true) ∨
        o = Outcome.exited EXIT_FAILURE) := by
  rw [execute_command_child sys _ hchild, child_eq]
  generalize snprintf MAX_INPUT "/bin/".toList a0 = p2
  generalize snprintf MAX_INPUT "/usr/bin/".toList a0 = p3
  generalize snprintf MAX_INPUT "/usr/local/bin/".toList a0 = p4
  generalize "mysh: command not found: ".toList = msg
  by_cases h1 : sys.execOk a0 = true
  · simp only [h1, if_true]
    exact ⟨_, _, rfl, rfl, Or.inl ⟨a0, rfl, h1⟩⟩
  · by_cases h2 : sys.execOk p2 = true
    · simp only [h1, h2, Bool.false_eq_true, if_true, if_false]
      exact ⟨_, _, rfl, rfl, Or.inl ⟨p2, rfl, h2⟩⟩
    · by_cases h3 : sys.execOk p3 = true
      · simp only [h1, h2, h3, Bool.false_eq_true, if_true, if_false]
        exact ⟨_, _, rfl, rfl, Or.inl ⟨p3, rfl, h3⟩⟩
      · by_cases h4 : sys.execOk p4 = true
        · simp only [h1, h2, h3, h4, Bool.false_eq_true, if_true, if_false]
          exact ⟨_, _, rfl, rfl, Or.inl ⟨p4, rfl, h4⟩⟩
        · simp only [h1, h2, h3, h4, Bool.false_eq_true, if_false]
          exact ⟨_, _, rfl, rfl, Or.inr rfl⟩

/-- Every run of `execute_command` on a non-empty vector is one entry, with
that vector. -/
theorem execute_command_total (sys : Sys) (a0 : List Char) (rest : List (List Char)) :
    ∃ (evs : List Ev) (o : Outcome),
      execute_command sys (a0 :: rest) = some (evs, o) ∧ calls evs = [a0 :: rest] ∧
      (sys.forkRet ≠ 0 → ∃ rc, o = Outcome.returned rc) ∧
      (sys.forkRet = 0 → ∀ rc, o ≠ Outcome.returned rc) := by
  by_cases h : sys.forkRet = 0
  · obtain ⟨evs, o, h1, h2, h3⟩ := execute_command_child_outcome sys a0 rest h
    refine ⟨_, o, h1, ?_, fun hn => absurd h hn, fun _ rc => ?_⟩
    · simp only [calls, h2]
    · rcases h3 with ⟨p, hp, -⟩ | hp <;> simp [hp]
  · rw [execute_command_parent sys _ h]
    by_cases h1 : sys.forkRet < 0
    · simp only [h1, if_true]
      exact ⟨_, _, rfl, rfl, fun _ => ⟨_, rfl⟩, fun h0 => absurd h0 h⟩
    · by_cases h2 : sys.waitRet = -1
      · simp only [h1, h2, if_true, if_false]
        exact ⟨_, _, rfl, rfl, fun _ => ⟨_, rfl⟩, fun h0 => absurd h0 h⟩
      · simp only [h1, h2, if_false]
        exact ⟨_, _, rfl, rfl, fun _ => ⟨_, rfl⟩, fun h0 => absurd h0 h⟩

/-! ## What the loop body does -/

theorem tokens_eq_runs (input : List Char) (args : List (Option Nat))
    (hargs : args.length = MAX_ARGS) :
    tokens input args = (runs (beforeNewline (cstr input 0))).take (MAX_ARGS - 1) := by
  obtain ⟨ptrs, buf, hres, hmap⟩ := parse_input_spec input args hargs
  simp only [tokens, hres, argv_ptrs, hmap]

/-- The loop body in terms of the tokens of the line. -/
theorem main_body_spec (sys : Sys) (input : List Char) (args : List (Option Nat))
    (hargs : args.length = MAX_ARGS) :
    ∃ (buf : List Char) (args1 : List (Option Nat)),
      parse_input input args = Parsed.ok (tokens input args).length buf args1 ∧
      args1.length = MAX_ARGS ∧
      (tokens input args = [] → main_body sys input args = some ⟨[], Flow.again, args1⟩) ∧
      (∀ t ts, tokens input args = t :: ts → t = "exit".toList →
        main_body sys input args
          = some ⟨[Ev.out "Exiting mysh...\n".toList], Flow.leave, args1⟩) ∧
      (∀ t ts evs rc, tokens input args = t :: ts → t ≠ "exit".toList →
        execute_command sys (t :: ts) = some (evs, Outcome.returned rc) →
        main_body sys input args = some ⟨evs, Flow.again, args1⟩) ∧
      (∀ t ts evs o, tokens input args = t :: ts → t ≠ "exit".toList →
        execute_command sys (t :: ts) = some (evs, o) → (∀ rc, o ≠ Outcome.returned rc) →
        main_body sys input args = some ⟨evs, Flow.ended o, args1⟩) := by
  obtain ⟨ptrs, buf, hres, hmap⟩ := parse_input_spec input args hargs
  have htok : tokens input args = ptrs.map (cstr buf) := by
    simp only [tokens, hres, argv_ptrs]
  have hn : ptrs.length ≤ MAX_ARGS - 1 := by
    have := congrArg List.length hmap
    simp only [List.length_map, List.length_take] at this
    omega
  have hlen : (tokens input args).length = ptrs.length := by simp [htok]
  refine ⟨buf, _, by rw [hlen]; exact hres, (parsed_array_facts ptrs args hargs hn).1, ?_⟩
  rcases ptrs with _ | ⟨p, ps⟩
  · simp only [List.length_nil, List.map_nil, List.nil_append, Nat.zero_add] at hres ⊢
    refine ⟨fun _ => ?_, ?_, ?_, ?_⟩
    · simp [main_body, hres]
    · intro t ts h; simp [htok] at h
    · intro t ts evs rc h; simp [htok] at h
    · intro t ts evs o h; simp [htok] at h
  · have hargv : argv buf (some p :: (ps.map some ++ none :: args.drop (ps.length + 1 + 1)))
        = cstr buf p :: ps.map (cstr buf) := argv_ptrs buf _ (p :: ps)
    simp only [List.length_cons, List.map_cons, List.cons_append] at hres ⊢
    simp only [List.map_cons] at htok
    refine ⟨fun h => ?_, ?_, ?_, ?_⟩
    · simp [htok] at h
    · intro t ts h he
      rw [htok] at h
      simp only [List.cons.injEq] at h
      have hp : cstr buf p = "exit".toList := h.1.trans he
      simp only [main_body, hres, Nat.add_one_ne_zero, if_false, hp, if_true]
    · intro t ts evs rc h hne hrun
      rw [htok] at h
      simp only [List.cons.injEq] at h
      have hp : ¬ (cstr buf p = "exit".toList) := fun e => hne (h.1.symm.trans e)
      simp only [main_body, hres, Nat.add_one_ne_zero, if_false, hp, hargv, h.1, h.2, hrun, hne]
    · intro t ts evs o h hne hrun hnr
      rw [htok] at h
      simp only [List.cons.injEq] at h
      have hp : ¬ (cstr buf p = "exit".toList) := fun e => hne (h.1.symm.trans e)
      cases o with
      | returned rc => exact absurd rfl (hnr rc)
      | replaced q =>
        simp only [main_body, hres, Nat.add_one_ne_zero, if_false, hp, hargv, h.1, h.2, hrun, hne]
      | exited c =>
        simp only [main_body, hres, Nat.add_one_ne_zero, if_false, hp, hargv, h.1, h.2, hrun, hne]

/-- The attempts of the child: a prefix of the four candidates, failures up to
the last one, and a success or the message at the end. -/
theorem attempts_spec (sys : Sys) (a0 : List Char) (rest : List (List Char))
    (hchild : sys.forkRet = 0) :
    ∃ (evs : List Ev) (o : Outcome),
      execute_command sys (a0 :: rest) = some (evs, o) ∧
      attempts evs <+: [a0, ("/bin/".toList ++ a0).take 1023,
        ("/usr/bin/".toList ++ a0).take 1023, ("/usr/local/bin/".toList ++ a0).take 1023] ∧
      (∀ p ∈ (attempts evs).dropLast, sys.execOk p = false) ∧
      ((∃ p, (attempts evs).getLast? = some p ∧ sys.execOk p = true ∧
          o = Outcome.replaced p) ∨
        (attempts evs = [a0, ("/bin/".toList ++ a0).take 1023,
          ("/usr/bin/".toList ++ a0).take 1023, ("/usr/local/bin/".toList ++ a0).take 1023] ∧
          ∀ p ∈ attempts evs, sys.execOk p = false)) ∧
      (a0.length ≤ 1008 →
        [a0, ("/bin/".toList ++ a0).take 1023, ("/usr/bin/".toList ++ a0).take 1023,
          ("/usr/local/bin/".toList ++ a0).take 1023]
        = [a0, "/bin/".toList ++ a0, "/usr/bin/".toList ++ a0,
          "/usr/local/bin/".toList ++ a0]) := by
  have hshort : a0.length ≤ 1008 →
      [a0, ("/bin/".toList ++ a0).take 1023, ("/usr/bin/".toList ++ a0).take 1023,
        ("/usr/local/bin/".toList ++ a0).take 1023]
      = [a0, "/bin/".toList ++ a0, "/usr/bin/".toList ++ a0,
        "/usr/local/bin/".toList ++ a0] := by
    intro hl
    rw [take_eq_self_of_short _ _ _ (by simp; omega),
      take_eq_self_of_short _ _ _ (by simp; omega),
      take_eq_self_of_short _ _ _ (by simp; omega)]
  rw [execute_command_child sys _ hchild, child_eq]
  simp only [snprintf_path]
  revert hshort
  generalize ("/bin/".toList ++ a0).take 1023 = p2
  generalize ("/usr/bin/".toList ++ a0).take 1023 = p3
  generalize ("/usr/local/bin/".toList ++ a0).take 1023 = p4
  generalize "mysh: command not found: ".toList = msg
  intro hshort
  by_cases h1 : sys.execOk a0 = true
  · simp only [h1, if_true]
    refine ⟨_, _, rfl, ?_, ?_, ?_, hshort⟩
    · exact ⟨[p2, p3, p4], rfl⟩
    · simp [attempts]
    · exact Or.inl ⟨a0, rfl, h1, rfl⟩
  · by_cases h2 : sys.execOk p2 = true
    · simp only [h1, h2, Bool.false_eq_true, if_true, if_false]
      refine ⟨_, _, rfl, ?_, ?_, ?_, hshort⟩
      · exact ⟨[p3, p4], rfl⟩
      · simp [attempts, h1]
      · exact Or.inl ⟨p2, rfl, h2, rfl⟩
    · by_cases h3 : sys.execOk p3 = true
      · simp only [h1, h2, h3, Bool.false_eq_true, if_true, if_false]
        refine ⟨_, _, rfl, ?_, ?_, ?_, hshort⟩
        · exact ⟨[p4], rfl⟩
        · simp [attempts, h1, h2]
        · exact Or.inl ⟨p3, rfl, h3, rfl⟩
      · by_cases h4 : sys.execOk p4 = true
        · simp only [h1, h2, h3, h4, Bool.false_eq_true, if_true, if_false]
          refine ⟨_, _, rfl, ?_, ?_, ?_, hshort⟩
          · exact ⟨[], rfl⟩
          · simp [attempts, h1, h2, h3]
          · exact Or.inl ⟨p4, rfl, h4, rfl⟩
        · simp only [h1, h2, h3, h4, Bool.false_eq_true, if_false]
          refine ⟨_, _, rfl, ?_, ?_, ?_, hshort⟩
          · exact ⟨[], rfl⟩
          · simp [attempts, h1, h2, h3]
          · exact Or.inr ⟨rfl, by simp [attempts, h1, h2, h3, h4]⟩

/-- A line made of one long run of a letter and the newline has that run as
its only token. -/
theorem tokens_single_run (n : Nat) (hn : 0 < n) :
    tokens (List.replicate n 'x' ++ ['\n']) args0 = [List.replicate n 'x'] := by
  have hc : cstr (List.replicate n 'x' ++ ['\n']) 0 = List.replicate n 'x' ++ ['\n'] := by
    unfold cstr
    rw [List.drop_zero]
    apply List.takeWhile_eq_self_iff.mpr
    intro c hc
    rcases List.mem_append.mp hc with h | h
    · rw [List.eq_of_mem_replicate h]; decide
    · rw [List.mem_singleton.mp h]; decide
  have hb : beforeNewline (List.replicate n 'x' ++ ['\n']) = List.replicate n 'x' := by
    unfold beforeNewline
    rw [List.takeWhile_append_of_pos]
    · simp
    · intro c h
      rw [List.eq_of_mem_replicate h]; decide
  have hr : runs (List.replicate n 'x') = [List.replicate n 'x'] := by
    unfold runs
    rw [List.splitOnP_eq_single]
    · obtain ⟨m, rfl⟩ : ∃ m, n = m + 1 := ⟨n - 1, by omega⟩
      simp [List.replicate_succ]
    · intro c h
      rw [List.eq_of_mem_replicate h]; decide
  rw [tokens_eq_runs _ _ (by decide), hc, hb, hr]
  rfl

/-- One pass of the loop in the parent process. -/
theorem main_loop_parent_step (sys : Nat → Sys) (hparent : ∀ k, (sys k).forkRet ≠ 0)
    (k : Nat) (args : List (Option Nat)) (hargs : args.length = MAX_ARGS)
    (input : List Char) (rest : List (List Char)) :
    ((tokens input args).head? = some "exit".toList →
      main_loop sys k args (input :: rest)
        = some (prompt ++ [Ev.out "Exiting mysh...\n".toList], Outcome.returned 0)) ∧
    ((tokens input args).head? ≠ some "exit".toList →
      ∃ (evs : List Ev) (args1 : List (Option Nat)),
        args1.length = MAX_ARGS ∧
        main_body (sys k) input args = some ⟨evs, Flow.again, args1⟩ ∧
        main_loop sys k args (input :: rest) =
          match main_loop sys (k + 1) args1 rest with
          | none => none
          | some r => some (prompt ++ evs ++ r.1, r.2)) := by
  obtain ⟨buf, args1, -, hlen, hnil, hexit, hret, -⟩ := main_body_spec (sys k) input args hargs
  rcases htok : tokens input args with _ | ⟨t, ts⟩
  · refine ⟨fun h => by simp at h, fun _ => ⟨[], args1, hlen, hnil htok, ?_⟩⟩
    simp only [main_loop, hnil htok]
  · by_cases he : t = "exit".toList
    · refine ⟨fun _ => ?_, fun h => absurd (by simp [he]) h⟩
      simp only [main_loop, hexit t ts htok he]
    · obtain ⟨evs, o, h1, -, h3, -⟩ := execute_command_total (sys k) t ts
      obtain ⟨rc, rfl⟩ := h3 (hparent k)
      have hb := hret t ts evs rc htok he h1
      refine ⟨fun h => absurd (by simpa using h) he, fun _ => ⟨evs, args1, hlen, hb, ?_⟩⟩
      simp only [main_loop, hb]

/-- In the parent process the loop always comes to its `return 0`. -/
theorem main_loop_parent_total (sys : Nat → Sys) (hparent : ∀ k, (sys k).forkRet ≠ 0) :
    ∀ (stdin : List (List Char)) (k : Nat) (args : List (Option Nat)),
      args.length = MAX_ARGS →
      ∃ evs, main_loop sys k args stdin = some (prompt ++ evs, Outcome.returned 0)
  | [], _, _, _ => ⟨[Ev.out ['\n']], rfl⟩
  | input :: rest, k, args, hargs => by
    obtain ⟨h1, h2⟩ := main_loop_parent_step sys hparent k args hargs input rest
    by_cases he : (tokens input args).head? = some "exit".toList
    · exact ⟨_, h1 he⟩
    · obtain ⟨evs, args1, hlen, -, hloop⟩ := h2 he
      obtain ⟨evs2, h3⟩ := main_loop_parent_total sys hparent rest (k + 1) args1 hlen
      rw [hloop, h3]
      exact ⟨evs ++ (prompt ++ evs2), by simp⟩

/-! ## The claims on the command runner -/

/-- C2 (as amended): in the child (`fork` returned 0), for every non-empty
argument vector and every behaviour of `execv`, the paths handed to `execv` are
a prefix of the list `args[0]`, then `/bin/`, `/usr/bin/`, `/usr/local/bin/`
each followed by `args[0]` and cut to the 1023 characters the path buffer
holds; every attempt before the last one failed; and either the last attempt
succeeded (the process became that program) or all four were attempted and all
failed.  For a name of at most 1008 characters nothing is cut. -/
theorem child_attempts_in_order (sys : Sys) (a0 : List Char) (rest : List (List Char))
    (hchild : sys.forkRet = 0) :
    ∃ (evs : List Ev) (o : Outcome),
      execute_command sys (a0 :: rest) = some (evs, o) ∧
      attempts evs <+: [a0, ("/bin/".toList ++ a0).take 1023,
        ("/usr/bin/".toList ++ a0).take 1023, ("/usr/local/bin/".toList ++ a0).take 1023] ∧
      (∀ p ∈ (attempts evs).dropLast, sys.execOk p = false) ∧
      ((∃ p, (attempts evs).getLast? = some p ∧ sys.execOk p = true ∧
          o = Outcome.replaced p) ∨
        (attempts evs = [a0, ("/bin/".toList ++ a0).take 1023,
          ("/usr/bin/".toList ++ a0).take 1023, ("/usr/local/bin/".toList ++ a0).take 1023] ∧
          ∀ p ∈ attempts evs, sys.execOk p = false)) ∧
      (a0.length ≤ 1008 →
        [a0, ("/bin/".toList ++ a0).take 1023, ("/usr/bin/".toList ++ a0).take 1023,
          ("/usr/local/bin/".toList ++ a0).take 1023]
        = [a0, "/bin/".toList ++ a0, "/usr/bin/".toList ++ a0,
          "/usr/local/bin/".toList ++ a0]) :=
  attempts_spec sys a0 rest hchild

/-- The operating system of the C2 example: this is the child, and `execv`
accepts `/usr/bin/ls` only. -/
theorem child_attempts_in_order_witness :
    ∃ (evs : List Ev) (o : Outcome),
      execute_command ⟨0, fun p => p == "/usr/bin/ls".toList, 0, 0⟩
        ["ls".toList, "-la".toList] = some (evs, o) ∧
      attempts evs = ["ls".toList, "/bin/ls".toList, "/usr/bin/ls".toList] ∧
      o = Outcome.replaced "/usr/bin/ls".toList := by
  obtain ⟨evs, o, h, -⟩ :=
    child_attempts_in_order ⟨0, fun p => p == "/usr/bin/ls".toList, 0, 0⟩
      "ls".toList ["-la".toList] rfl
  have hc : execute_command ⟨0, fun p => p == "/usr/bin/ls".toList, 0, 0⟩
      ["ls".toList, "-la".toList]
      = some ([Ev.enter ["ls".toList, "-la".toList], Ev.fork,
          Ev.execv "ls".toList ["ls".toList, "-la".toList],
          Ev.execv "/bin/ls".toList ["ls".toList, "-la".toList],
          Ev.execv "/usr/bin/ls".toList ["ls".toList, "-la".toList]],
          Outcome.replaced "/usr/bin/ls".toList) := by
    decide
  rw [hc] at h
  simp only [Option.some.injEq, Prod.mk.injEq] at h
  obtain ⟨h1, h2⟩ := h
  subst h1 h2
  exact ⟨_, _, hc, by decide, rfl⟩

/-- C2 as stated fails: with a name of 1009 characters and every `execv`
failing, the fourth path attempted is not `/usr/local/bin/` followed by the
name (it has 1023 characters, the name's last character is cut), so the
attempts are not the whole literal list. -/
theorem long_name_breaks_literal_order :
    ∃ (evs : List Ev) (o : Outcome),
      execute_command ⟨0, fun _ => false, 0, 0⟩ [List.replicate 1009 'a'] = some (evs, o) ∧
      attempts evs = [List.replicate 1009 'a', "/bin/".toList ++ List.replicate 1009 'a',
        "/usr/bin/".toList ++ List.replicate 1009 'a',
        "/usr/local/bin/".toList ++ List.replicate 1008 'a'] ∧
      attempts evs ≠ [List.replicate 1009 'a', "/bin/".toList ++ List.replicate 1009 'a',
        "/usr/bin/".toList ++ List.replicate 1009 'a',
        "/usr/local/bin/".toList ++ List.replicate 1009 'a'] := by
  have h4 : ("/usr/local/bin/".toList ++ List.replicate 1009 'a').take 1023
      = "/usr/local/bin/".toList ++ List.replicate 1008 'a' :=
    take_append_replicate "/usr/local/bin/".toList 'a' 1009 1008 (by decide) (by decide)
  have h2 : ("/bin/".toList ++ List.replicate 1009 'a').take 1023
      = "/bin/".toList ++ List.replicate 1009 'a' :=
    take_eq_self_of_short _ _ _ (by simp only [List.length_replicate]; decide)
  have h3 : ("/usr/bin/".toList ++ List.replicate 1009 'a').take 1023
      = "/usr/bin/".toList ++ List.replicate 1009 'a' :=
    take_eq_self_of_short _ _ _ (by simp only [List.length_replicate]; decide)
  refine ⟨_, _, all_fail_run _ _ _ rfl (fun _ => rfl), ?_, ?_⟩
  · simp only [attempts]
    rw [h2, h3, h4]
  · simp only [attempts]
    rw [h4]
    intro h
    have h1 := congrArg (fun l => (l.getD 3 []).length) h
    have h15 : "/usr/local/bin/".toList.length = 15 := rfl
    simp only [List.getD_cons_succ, List.getD_cons_zero, List.length_append,
      List.length_replicate, h15] at h1
    omega

/-- C3: in the parent process (the process in which `fork` did not return 0),
`execute_command` returns, and it returns -1 exactly when process creation
failed (`fork` returned a negative value) or the `wait` call failed (returned
-1), and 0 in every other case; the status the child ended with plays no part.
No `execv` is attempted there, and when `fork` fails nothing but the `perror`
follows it: no `wait` either. -/
theorem parent_return_value (sys : Sys) (args : List (List Char))
    (hparent : sys.forkRet ≠ 0) :
    ∃ (evs : List Ev) (rc : Int),
      execute_command sys args = some (evs, Outcome.returned rc) ∧
      (rc = -1 ↔ (sys.forkRet < 0 ∨ (0 < sys.forkRet ∧ sys.waitRet = -1))) ∧
      (rc ≠ -1 → rc = 0) ∧
      attempts evs = [] ∧
      (sys.forkRet < 0 →
        evs = [Ev.enter args, Ev.fork, Ev.perror "fork".toList] ∧ Ev.wait ∉ evs) ∧
      (∀ st : Int,
        execute_command ⟨sys.forkRet, sys.execOk, sys.waitRet, st⟩ args
          = execute_command sys args) := by
  have hst : ∀ st : Int,
      execute_command ⟨sys.forkRet, sys.execOk, sys.waitRet, st⟩ args
        = execute_command sys args := by
    intro st
    rw [execute_command_parent ⟨sys.forkRet, sys.execOk, sys.waitRet, st⟩ args hparent,
      execute_command_parent sys args hparent]
  have he := execute_command_parent sys args hparent
  by_cases h1 : sys.forkRet < 0
  · simp only [h1, if_true] at he
    refine ⟨_, _, he, ?_, ?_, rfl, fun _ => ⟨rfl, by simp⟩, hst⟩
    · simp [h1]
    · intro h; exact absurd rfl h
  · have hpos : 0 < sys.forkRet := by omega
    by_cases h2 : sys.waitRet = -1
    · simp only [h1, h2, if_true, if_false] at he
      refine ⟨_, _, he, ?_, ?_, rfl, fun h => absurd h h1, hst⟩
      · simp [hpos, h2]
      · intro h; exact absurd rfl h
    · simp only [h1, h2, if_false] at he
      refine ⟨_, _, he, ?_, fun _ => rfl, rfl, fun h => absurd h h1, hst⟩
      simp [h1, h2]

/-- C3, at a failed `fork`: the call returns -1 after `perror("fork")`. -/
theorem parent_return_value_witness :
    execute_command ⟨-1, fun _ => true, 7, 0⟩ ["ls".toList]
      = some ([Ev.enter ["ls".toList], Ev.fork, Ev.perror "fork".toList],
          Outcome.returned (-1)) := by
  obtain ⟨evs, rc, h, hrc, -, -, hfork, -⟩ :=
    parent_return_value ⟨-1, fun _ => true, 7, 0⟩ ["ls".toList] (by decide)
  have h1 : rc = -1 := hrc.mpr (Or.inl (by decide))
  rw [h, h1, (hfork (by decide)).1]

/-- C4: in the child (`fork` returned 0), for every non-empty argument vector,
`execute_command` never returns to its caller: the process becomes a program
whose `execv` succeeded, or it exits with `EXIT_FAILURE`, which is not zero.
When the four attempts fail, the child writes exactly
`mysh: command not found: `, `args[0]` and a newline to the error stream and
exits with that status.  So a loop body that reached `fork` in the child never
ends in the state that goes back to the prompt. -/
theorem child_never_returns (sys : Sys) (a0 : List Char) (rest : List (List Char))
    (hchild : sys.forkRet = 0) :
    (∃ (evs : List Ev) (o : Outcome),
      execute_command sys (a0 :: rest) = some (evs, o) ∧
      (∀ rc, o ≠ Outcome.returned rc) ∧
      ((∃ p, o = Outcome.replaced p ∧ sys.execOk p = true) ∨
        o = Outcome.exited EXIT_FAILURE)) ∧
    (sys.execOk a0 = false →
      sys.execOk (snprintf MAX_INPUT "/bin/".toList a0) = false →
      sys.execOk (snprintf MAX_INPUT "/usr/bin/".toList a0) = false →
      sys.execOk (snprintf MAX_INPUT "/usr/local/bin/".toList a0) = false →
      execute_command sys (a0 :: rest) =
        some ([Ev.enter (a0 :: rest), Ev.fork, Ev.execv a0 (a0 :: rest),
          Ev.execv (snprintf MAX_INPUT "/bin/".toList a0) (a0 :: rest),
          Ev.execv (snprintf MAX_INPUT "/usr/bin/".toList a0) (a0 :: rest),
          Ev.execv (snprintf MAX_INPUT "/usr/local/bin/".toList a0) (a0 :: rest),
          Ev.err ("mysh: command not found: ".toList ++ a0 ++ ['\n'])],
          Outcome.exited EXIT_FAILURE)) ∧
    EXIT_FAILURE ≠ 0 ∧
    (∀ (input : List Char) (args : List (Option Nat)) (it : Iter),
      args.length = MAX_ARGS → main_body sys input args = some it →
      Ev.fork ∈ it.evs → ∃ o, it.flow = Flow.ended o ∧ ∀ rc, o ≠ Outcome.returned rc) := by
  refine ⟨?_, ?_, by decide, ?_⟩
  · obtain ⟨evs, o, h1, -, h3⟩ := execute_command_child_outcome sys a0 rest hchild
    refine ⟨_, o, h1, fun rc => ?_, h3⟩
    rcases h3 with ⟨p, hp, -⟩ | hp <;> simp [hp]
  · intro h1 h2 h3 h4
    rw [execute_command_child sys _ hchild, child_eq]
    simp only [h1, h2, h3, h4, Bool.false_eq_true, if_false]
  · intro input args it hargs hbody hfork
    obtain ⟨buf, args1, -, -, hnil, hexit, -, hrun⟩ := main_body_spec sys input args hargs
    rcases htok : tokens input args with _ | ⟨t, ts⟩
    · rw [hnil htok] at hbody
      simp only [Option.some.injEq] at hbody
      subst hbody
      simp at hfork
    · by_cases he : t = "exit".toList
      · rw [hexit t ts htok he] at hbody
        simp only [Option.some.injEq] at hbody
        subst hbody
        simp at hfork
      · obtain ⟨evs, o, h1, -, -, h4⟩ := execute_command_total sys t ts
        rw [hrun t ts evs o htok he h1 (h4 hchild)] at hbody
        simp only [Option.some.injEq] at hbody
        subst hbody
        exact ⟨o, rfl, h4 hchild⟩

/-- C4, at a command no `execv` accepts: four attempts, the message with the
name, exit status 1; and the loop body ends there. -/
theorem child_never_returns_witness :
    execute_command ⟨0, fun _ => false, 0, 0⟩ ["nosuch".toList]
      = some ([Ev.enter ["nosuch".toList], Ev.fork,
          Ev.execv "nosuch".toList ["nosuch".toList],
          Ev.execv "/bin/nosuch".toList ["nosuch".toList],
          Ev.execv "/usr/bin/nosuch".toList ["nosuch".toList],
          Ev.execv "/usr/local/bin/nosuch".toList ["nosuch".toList],
          Ev.err "mysh: command not found: nosuch\n".toList], Outcome.exited 1) :=
  (child_never_returns ⟨0, fun _ => false, 0, 0⟩ "nosuch".toList [] rfl).2.1 rfl rfl rfl rfl

/-- C5 (as amended): in the child, the paths handed to `execv` are always a
prefix of `args[0]` and the three strings `snprintf` leaves in the 1024-byte
buffer, which are the first 1023 characters of `/bin/`, `/usr/bin/` and
`/usr/local/bin/` followed by `args[0]`; when every attempt fails all four are
handed over; and the three are exactly the prefix followed by `args[0]` when
`args[0]` has at most 1018, 1014 and 1008 characters respectively. -/
theorem candidate_paths_cut_to_buffer (sys : Sys) (a0 : List Char) (rest : List (List Char))
    (hchild : sys.forkRet = 0) :
    ∃ (evs : List Ev) (o : Outcome),
      execute_command sys (a0 :: rest) = some (evs, o) ∧
      attempts evs <+: [a0, snprintf MAX_INPUT "/bin/".toList a0,
        snprintf MAX_INPUT "/usr/bin/".toList a0,
        snprintf MAX_INPUT "/usr/local/bin/".toList a0] ∧
      ((∀ p, sys.execOk p = false) →
        attempts evs = [a0, snprintf MAX_INPUT "/bin/".toList a0,
          snprintf MAX_INPUT "/usr/bin/".toList a0,
          snprintf MAX_INPUT "/usr/local/bin/".toList a0]) ∧
      snprintf MAX_INPUT "/bin/".toList a0 = ("/bin/".toList ++ a0).take 1023 ∧
      snprintf MAX_INPUT "/usr/bin/".toList a0 = ("/usr/bin/".toList ++ a0).take 1023 ∧
      snprintf MAX_INPUT "/usr/local/bin/".toList a0
        = ("/usr/local/bin/".toList ++ a0).take 1023 ∧
      (a0.length ≤ 1018 → snprintf MAX_INPUT "/bin/".toList a0 = "/bin/".toList ++ a0) ∧
      (a0.length ≤ 1014 →
        snprintf MAX_INPUT "/usr/bin/".toList a0 = "/usr/bin/".toList ++ a0) ∧
      (a0.length ≤ 1008 →
        snprintf MAX_INPUT "/usr/local/bin/".toList a0 = "/usr/local/bin/".toList ++ a0) := by
  obtain ⟨evs, o, h1, h2, -, h4, -⟩ := attempts_spec sys a0 rest hchild
  refine ⟨evs, o, h1, h2, ?_, rfl, rfl, rfl, ?_, ?_, ?_⟩
  · intro hfail
    rcases h4 with ⟨p, -, hp, -⟩ | ⟨h, -⟩
    · rw [hfail p] at hp
      exact absurd hp (by decide)
    · exact h
  · intro hl
    exact take_eq_self_of_short _ _ 1023 (by simp; omega)
  · intro hl
    exact take_eq_self_of_short _ _ 1023 (by simp; omega)
  · intro hl
    exact take_eq_self_of_short _ _ 1023 (by simp; omega)

/-- C5, at `ls` with every `execv` failing: the four paths in full. -/
theorem candidate_paths_cut_to_buffer_witness :
    ∃ (evs : List Ev) (o : Outcome),
      execute_command ⟨0, fun _ => false, 0, 0⟩ ["ls".toList] = some (evs, o) ∧
      attempts evs
        = ["ls".toList, "/bin/ls".toList, "/usr/bin/ls".toList, "/usr/local/bin/ls".toList] := by
  obtain ⟨evs, o, h1, -, h3, -⟩ :=
    candidate_paths_cut_to_buffer ⟨0, fun _ => false, 0, 0⟩ "ls".toList [] rfl
  exact ⟨evs, o, h1, h3 (fun _ => rfl)⟩


/-- C5 as stated fails: a line of 1019 letters and the newline fits the
1024-byte input buffer and has that 1019-character run as its only token, yet
with every `execv` failing the second path handed to `execv` is `/bin/` and
1018 letters, not `/bin/` followed by the token. -/
theorem long_token_path_is_cut :
    (List.replicate 1019 'x' ++ ['\n']).length ≤ 1023 ∧
    tokens (List.replicate 1019 'x' ++ ['\n']) args0 = [List.replicate 1019 'x'] ∧
    ∃ (evs : List Ev) (o : Outcome),
      execute_command ⟨0, fun _ => false, 0, 0⟩ [List.replicate 1019 'x'] = some (evs, o) ∧
      (attempts evs)[1]? = some ("/bin/".toList ++ List.replicate 1018 'x') ∧
      (attempts evs)[1]? ≠ some ("/bin/".toList ++ List.replicate 1019 'x') := by
  have h2 : ("/bin/".toList ++ List.replicate 1019 'x').take 1023
      = "/bin/".toList ++ List.replicate 1018 'x' :=
    take_append_replicate "/bin/".toList 'x' 1019 1018 (by decide) (by decide)
  refine ⟨by simp only [List.length_append, List.length_replicate]; decide,
    tokens_single_run 1019 (by decide), _, _, all_fail_run _ _ _ rfl (fun _ => rfl), ?_, ?_⟩
  · simp only [attempts]
    rw [h2]
    rfl
  · simp only [attempts]
    rw [h2]
    intro h
    have h1 := congrArg (fun l => (l.getD []).length) h
    have h5 : "/bin/".toList.length = 5 := rfl
    simp only [List.getElem?_cons_succ, List.getElem?_cons_zero, Option.getD_some,
      List.length_append, List.length_replicate, h5] at h1
    omega

/-! ## The claims on the driver loop -/

/-- C9: for an input line with at least one token, the loop body enters
`execute_command` exactly once, with the tokens as its argument vector, if
and only if the first token is not the string `exit`; when the first token is
`exit`, whatever follows it, the body only prints the farewell message and
breaks out of the loop, which then returns 0 without any call of
`execute_command`. -/
theorem exit_or_one_run (sys : Nat → Sys) (k : Nat) (input : List Char)
    (args : List (Option Nat)) (t : List Char) (ts : List (List Char))
    (hargs : args.length = MAX_ARGS) (htok : tokens input args = t :: ts) :
    ∃ it : Iter, main_body (sys k) input args = some it ∧
      (calls it.evs = [t :: ts] ↔ t ≠ "exit".toList) ∧
      (t ≠ "exit".toList →
        it.flow ≠ Flow.leave ∧ ∃ o, execute_command (sys k) (t :: ts) = some (it.evs, o)) ∧
      (t = "exit".toList →
        it.evs = [Ev.out "Exiting mysh...\n".toList] ∧ it.flow = Flow.leave ∧
        calls it.evs = [] ∧
        ∀ rest, main_loop sys k args (input :: rest)
          = some (prompt ++ [Ev.out "Exiting mysh...\n".toList], Outcome.returned 0)) := by
  obtain ⟨buf, args1, -, -, -, hexit, hret, hend⟩ := main_body_spec (sys k) input args hargs
  by_cases he : t = "exit".toList
  · have hb := hexit t ts htok he
    refine ⟨_, hb, ?_, fun h => absurd he h, fun _ => ⟨rfl, rfl, rfl, fun rest => ?_⟩⟩
    · simp [calls, he]
    · simp only [main_loop, hb]
  · obtain ⟨evs, o, h1, h2, h3, h4⟩ := execute_command_total (sys k) t ts
    by_cases hf : (sys k).forkRet = 0
    · have hb := hend t ts evs o htok he h1 (h4 hf)
      exact ⟨_, hb, ⟨fun _ => he, fun _ => h2⟩, fun _ => ⟨by simp, o, h1⟩,
        fun h => absurd h he⟩
    · obtain ⟨rc, rfl⟩ := h3 hf
      have hb := hret t ts evs rc htok he h1
      exact ⟨_, hb, ⟨fun _ => he, fun _ => h2⟩, fun _ => ⟨by simp, _, h1⟩,
        fun h => absurd h he⟩

/-- C9, at the line `exit`: its only token is `exit`, the body prints the
farewell and the loop returns 0. -/
theorem exit_or_one_run_witness :
    tokens "exit".toList args0 = ["exit".toList] ∧
    ∀ (sys : Nat → Sys) (rest : List (List Char)),
      main_loop sys 0 args0 ("exit".toList :: rest)
        = some (prompt ++ [Ev.out "Exiting mysh...\n".toList], Outcome.returned 0) := by
  refine ⟨by decide, fun sys rest => ?_⟩
  obtain ⟨it, -, -, -, h⟩ :=
    exit_or_one_run sys 0 "exit".toList args0 "exit".toList [] (by decide) (by decide)
  exact (h rfl).2.2.2 rest

/-- C10: in the parent process (no `fork` of the session returns 0), whatever
`fork` and `wait` answer: at end of input the loop prints a newline and `main`
returns 0; on a line whose first token is `exit` it prints the farewell and
`main` returns 0; on every other line, empty or not, whatever
`execute_command` returned, the body ends in the state that goes on with the
next pass, which starts with the prompt; and every session ends with `main`
returning 0. -/
theorem session_ends_only_on_exit_or_eof (sys : Nat → Sys)
    (hparent : ∀ k, (sys k).forkRet ≠ 0) (k : Nat) (args : List (Option Nat))
    (hargs : args.length = MAX_ARGS) :
    main_loop sys k args [] = some (prompt ++ [Ev.out ['\n']], Outcome.returned 0) ∧
    (∀ input rest, (tokens input args).head? = some "exit".toList →
      main_loop sys k args (input :: rest)
        = some (prompt ++ [Ev.out "Exiting mysh...\n".toList], Outcome.returned 0)) ∧
    (∀ input rest, (tokens input args).head? ≠ some "exit".toList →
      ∃ (evs : List Ev) (args1 : List (Option Nat)),
        args1.length = MAX_ARGS ∧
        main_body (sys k) input args = some ⟨evs, Flow.again, args1⟩ ∧
        main_loop sys k args (input :: rest) =
          match main_loop sys (k + 1) args1 rest with
          | none => none
          | some r => some (prompt ++ evs ++ r.1, r.2)) ∧
    (∀ stdin, ∃ evs, main_loop sys k args stdin = some (prompt ++ evs, Outcome.returned 0)) :=
  ⟨rfl,
    fun input rest => (main_loop_parent_step sys hparent k args hargs input rest).1,
    fun input rest => (main_loop_parent_step sys hparent k args hargs input rest).2,
    fun stdin => main_loop_parent_total sys hparent stdin k args hargs⟩

/-- C10, at a session where every `wait` fails: a command, an empty line, a
second command, then `exit`; the session ends with `main` returning 0. -/
theorem session_ends_only_on_exit_or_eof_witness :
    ∃ evs, main (fun _ => ⟨5, fun _ => false, -1, 0⟩) args0
        ["ls -la\n".toList, "\n".toList, "pwd\n".toList, "exit\n".toList]
      = some (prompt ++ evs, Outcome.returned 0) :=
  (session_ends_only_on_exit_or_eof (fun _ => ⟨5, fun _ => false, -1, 0⟩)
    (fun _ => (by decide : (5 : Int) ≠ 0)) 0 args0 (by decide)).2.2.2 _


end MyShell
